import Mathlib

/-!
Verification of `solcast_daily.py` against its design specification.

The Python source is shallowly embedded:
* `DurationHours` mirrors the regex-based ISO-8601 duration parser
  (`_DURATION_RE` is `^PT(?:(\d+)H)?(?:(\d+)M)?(?:(\d+)S)?$`); the regex
  is embedded as the deterministic parser `matchDuration` (the regex is
  backtracking-free on this pattern: each digit run is maximal and must be
  followed by its marker letter). Digits are modelled as ASCII digits.
* `ParsePeriodEnd` mirrors the timestamp normalisation performed before
  `datetime.fromisoformat`; it is modelled as the string-to-string
  normalisation, since `fromisoformat` maps equal strings to equal instants.
* `KwhByDay` mirrors the aggregation loop.  Parsed-and-converted local
  datetimes are modelled as linear local time in minutes (`Int`), with the
  local calendar date obtained by flooring division by 1440; datetime
  comparison and `.date()` bucketing keep their structure under this model.
  Rational numbers stand in for Python floats.
* `LoadOrRefreshCache` mirrors the cache lifecycle; filesystem and network
  effects are supplied as an explicit environment (`CacheEnv`) recording the
  outcome of each external operation performed by the function.
* `FetchForecast` mirrors the DNS retry loop; the outcome of each network attempt
  is supplied by an environment function `Nat → Attempt`.
-/

namespace Solcast

/-! ## Duration parsing (`DurationHours`, source lines 58-69) -/

/-- Numeric value of a list of ASCII digit characters (as read by `int`). -/
def natOfDigits (ds : List Char) : Nat :=
  ds.foldl (fun a c => a * 10 + (c.toNat - 48)) 0

/-- One optional regex component `(?:(\d+)X)?` for marker `X`: take the maximal
leading digit run; if it is nonempty and followed by the marker, consume both
and return the value, otherwise consume nothing. -/
def takeComp (marker : Char) (cs : List Char) : Option Nat × List Char :=
  let d := cs.takeWhile Char.isDigit
  let r := cs.dropWhile Char.isDigit
  if d.isEmpty then (none, cs)
  else
    match r with
    | [] => (none, cs)
    | c :: r2 => if c = marker then (some (natOfDigits d), r2) else (none, cs)

/-- Embedding of `_DURATION_RE.match`: `^PT(?:(\d+)H)?(?:(\d+)M)?(?:(\d+)S)?$`.
Returns the three captured groups with `int(g or 0)` applied. -/
def matchDuration (s : String) : Option (Nat × Nat × Nat) :=
  match s.data with
  | c1 :: c2 :: rest =>
    if c1 = 'P' ∧ c2 = 'T' then
      let p1 := takeComp 'H' rest
      let p2 := takeComp 'M' p1.2
      let p3 := takeComp 'S' p2.2
      if p3.2.isEmpty then some (p1.1.getD 0, p2.1.getD 0, p3.1.getD 0) else none
    else none
  | _ => none

/-- Embedding of `DurationHours` (source lines 61-69). -/
def DurationHours (iso : String) : ℚ :=
  match matchDuration iso with
  | some (h, m, s) => (h : ℚ) + (m : ℚ) / 60 + (s : ℚ) / 3600
  | none => 1 / 2

example : DurationHours "PT30M" = 1 / 2 := by
  unfold DurationHours
  rw [show matchDuration "PT30M" = some (0, 30, 0) from rfl]
  norm_num

example : DurationHours "PT1H30M" = 3 / 2 := by
  unfold DurationHours
  rw [show matchDuration "PT1H30M" = some (1, 30, 0) from rfl]
  norm_num

example : DurationHours "garbage" = 1 / 2 := by
  unfold DurationHours
  rw [show matchDuration "garbage" = none from rfl]

example : DurationHours "PT" = 0 := by
  unfold DurationHours
  rw [show matchDuration "PT" = some (0, 0, 0) from rfl]
  norm_num

/-! ### The shape of strings accepted by the duration regex (for claim C5) -/

/-- The text contributed by one optional `{n}X` component of the pattern. -/
def compData (d : Option (List Char)) (marker : Char) : List Char :=
  match d with
  | none => []
  | some ds => ds ++ [marker]

/-- A string of the exact form `PT{h}H{m}M{s}S` with any subset of the three
components present (each present component being an explicit digit string). -/
def durationString (oh om os : Option (List Char)) : String :=
  ⟨'P' :: 'T' :: (compData oh 'H' ++ (compData om 'M' ++ compData os 'S'))⟩

/-- A present component must be a nonempty string of (ASCII) digits. -/
def goodDigits : Option (List Char) → Bool
  | none => true
  | some ds => !ds.isEmpty && ds.all Char.isDigit

/-- Numeric value of an optional component (absent components count as 0). -/
def valOf : Option (List Char) → Nat
  | none => 0
  | some ds => natOfDigits ds

lemma goodDigits_some {ds : List Char} (h : goodDigits (some ds) = true) :
    ds ≠ [] ∧ ∀ x ∈ ds, x.isDigit := by
  simp only [goodDigits, Bool.and_eq_true, Bool.not_eq_true', List.all_eq_true] at h
  refine ⟨?_, h.2⟩
  intro hnil
  rw [hnil] at h
  simp at h

lemma span_digits_append (ds : List Char) (c : Char) (rest : List Char)
    (h1 : ∀ x ∈ ds, x.isDigit) (h2 : ¬ c.isDigit) :
    (ds ++ c :: rest).takeWhile Char.isDigit = ds ∧
    (ds ++ c :: rest).dropWhile Char.isDigit = c :: rest := by
  induction ds with
  | nil => simp [List.takeWhile_cons, List.dropWhile_cons, h2]
  | cons a as ih =>
    have ha : a.isDigit := h1 a (by simp)
    have h := ih (fun x hx => h1 x (by simp [hx]))
    simp [List.takeWhile_cons, List.dropWhile_cons, ha, h.1, h.2]

lemma takeComp_nil (marker : Char) : takeComp marker [] = (none, []) := rfl

/-- `takeComp` consumes a component that is right there. -/
lemma takeComp_match (marker : Char) (ds : List Char) (rest : List Char)
    (hm : ¬ marker.isDigit) (hne : ds ≠ []) (hdig : ∀ x ∈ ds, x.isDigit) :
    takeComp marker (ds ++ marker :: rest) = (some (natOfDigits ds), rest) := by
  obtain ⟨ht, hd⟩ := span_digits_append ds marker rest hdig hm
  unfold takeComp
  simp only [ht, hd]
  simp [List.isEmpty_iff, hne]

/-- `takeComp` consumes nothing when the digit run is followed by a different
marker (or when the list starts with a non-digit). -/
lemma takeComp_skip (marker c : Char) (ds rest : List Char)
    (hc : ¬ c.isDigit) (hcm : c ≠ marker) (hdig : ∀ x ∈ ds, x.isDigit) :
    takeComp marker (ds ++ c :: rest) = (none, ds ++ c :: rest) := by
  obtain ⟨ht, hd⟩ := span_digits_append ds c rest hdig hc
  unfold takeComp
  simp only [ht, hd]
  rcases Decidable.em (ds = []) with h | h
  · subst h; simp
  · simp [List.isEmpty_iff, h, hcm]

lemma matchDuration_durationString (oh om os : Option (List Char))
    (h1 : goodDigits oh = true) (h2 : goodDigits om = true) (h3 : goodDigits os = true) :
    matchDuration (durationString oh om os) = some (valOf oh, valOf om, valOf os) := by
  have hds : (durationString oh om os).data
      = 'P' :: 'T' :: (compData oh 'H' ++ (compData om 'M' ++ compData os 'S')) := rfl
  -- characterize the three successive `takeComp` calls on this shape
  have hS : takeComp 'S' (compData os 'S') = (os.map natOfDigits, []) := by
    cases os with
    | none => exact takeComp_nil 'S'
    | some ds =>
      obtain ⟨hne, hdig⟩ := goodDigits_some h3
      simpa [compData] using takeComp_match 'S' ds [] (by decide) hne hdig
  have hMS : takeComp 'M' (compData om 'M' ++ compData os 'S')
      = (om.map natOfDigits, compData os 'S') := by
    cases om with
    | none =>
      cases os with
      | none => exact takeComp_nil 'M'
      | some ds =>
        obtain ⟨hne, hdig⟩ := goodDigits_some h3
        simpa [compData] using
          takeComp_skip 'M' 'S' ds [] (by decide) (by decide) hdig
    | some ds =>
      obtain ⟨hne, hdig⟩ := goodDigits_some h2
      simpa [compData] using
        takeComp_match 'M' ds (compData os 'S') (by decide) hne hdig
  have hHMS : takeComp 'H' (compData oh 'H' ++ (compData om 'M' ++ compData os 'S'))
      = (oh.map natOfDigits, compData om 'M' ++ compData os 'S') := by
    cases oh with
    | none =>
      cases om with
      | some ds =>
        obtain ⟨hne, hdig⟩ := goodDigits_some h2
        simpa [compData] using
          takeComp_skip 'H' 'M' ds (compData os 'S') (by decide) (by decide) hdig
      | none =>
        cases os with
        | none => exact takeComp_nil 'H'
        | some ds =>
          obtain ⟨hne, hdig⟩ := goodDigits_some h3
          simpa [compData] using
            takeComp_skip 'H' 'S' ds [] (by decide) (by decide) hdig
    | some ds =>
      obtain ⟨hne, hdig⟩ := goodDigits_some h1
      simpa [compData] using
        takeComp_match 'H' ds (compData om 'M' ++ compData os 'S') (by decide) hne hdig
  unfold matchDuration
  rw [hds]
  simp only [if_pos (And.intro rfl rfl), hHMS, hMS, hS, List.isEmpty_nil, if_true]
  cases oh <;> cases om <;> cases os <;> simp [valOf, natOfDigits]

lemma goodDigits_of (ds : List Char) (hne : ds ≠ []) (hdig : ∀ x ∈ ds, x.isDigit) :
    goodDigits (some ds) = true := by
  simp [goodDigits, List.isEmpty_iff, hne, List.all_eq_true]
  exact hdig

/-- Whatever `takeComp` does, its input splits as an (optionally empty)
well-formed component followed by its output remainder. -/
lemma takeComp_decomp (marker : Char) (cs : List Char) :
    ∃ o : Option (List Char), goodDigits o = true ∧
      cs = compData o marker ++ (takeComp marker cs).2 := by
  by_cases hd : (cs.takeWhile Char.isDigit).isEmpty = true
  · refine ⟨none, rfl, ?_⟩
    have h2 : (takeComp marker cs).2 = cs := by unfold takeComp; simp [hd]
    rw [h2]
    simp [compData]
  · rcases hr : cs.dropWhile Char.isDigit with _ | ⟨c, r2⟩
    · refine ⟨none, rfl, ?_⟩
      have h2 : (takeComp marker cs).2 = cs := by unfold takeComp; simp [hd, hr]
      rw [h2]
      simp [compData]
    · by_cases hc : c = marker
      · refine ⟨some (cs.takeWhile Char.isDigit), ?_, ?_⟩
        · refine goodDigits_of _ ?_ (fun x hx => List.mem_takeWhile_imp hx)
          intro hnil
          rw [hnil] at hd
          exact hd rfl
        · have h2 : (takeComp marker cs).2 = r2 := by
            unfold takeComp
            simp [hd, hr, hc]
          rw [h2]
          simp only [compData, List.append_assoc, List.singleton_append]
          rw [← hc, ← hr]
          exact (List.takeWhile_append_dropWhile Char.isDigit cs).symm
      · refine ⟨none, rfl, ?_⟩
        have h2 : (takeComp marker cs).2 = cs := by unfold takeComp; simp [hd, hr, hc]
        rw [h2]
        simp [compData]

lemma matchDuration_some_form {t : String} {v : Nat × Nat × Nat}
    (h : matchDuration t = some v) :
    ∃ oh om os, goodDigits oh = true ∧ goodDigits om = true ∧ goodDigits os = true ∧
      t = durationString oh om os := by
  unfold matchDuration at h
  split at h
  case h_2 => exact absurd h (by simp)
  case h_1 c1 c2 rest heq =>
    split at h
    case isFalse => exact absurd h (by simp)
    case isTrue hPT =>
      obtain ⟨hc1, hc2⟩ := hPT
      have h' : (if (takeComp 'S' (takeComp 'M' (takeComp 'H' rest).2).2).2.isEmpty = true
          then some ((takeComp 'H' rest).1.getD 0,
                     (takeComp 'M' (takeComp 'H' rest).2).1.getD 0,
                     (takeComp 'S' (takeComp 'M' (takeComp 'H' rest).2).2).1.getD 0)
          else none) = some v := h
      have hempty : (takeComp 'S' (takeComp 'M' (takeComp 'H' rest).2).2).2.isEmpty = true := by
        by_contra hcon
        rw [if_neg hcon] at h'
        exact absurd h' (by simp)
      obtain ⟨oh, hgh, hrest⟩ := takeComp_decomp 'H' rest
      obtain ⟨om, hgm, hr1⟩ := takeComp_decomp 'M' (takeComp 'H' rest).2
      obtain ⟨os, hgs, hr2⟩ := takeComp_decomp 'S' (takeComp 'M' (takeComp 'H' rest).2).2
      rw [List.isEmpty_iff] at hempty
      refine ⟨oh, om, os, hgh, hgm, hgs, ?_⟩
      have hdata : t.data = (durationString oh om os).data := by
        show t.data = 'P' :: 'T' :: (compData oh 'H' ++ (compData om 'M' ++ compData os 'S'))
        rw [heq, hc1, hc2]
        rw [hempty, List.append_nil] at hr2
        rw [hrest, hr1, hr2]
      cases t with
      | mk data =>
        cases hds : durationString oh om os with
        | mk data2 =>
          have hdd : data = data2 := by
            have h2 := hdata
            rw [hds] at h2
            exact h2
          rw [hdd]

/-- Claim C5: for every valid ISO-8601 duration string of the form
`PT{h}H{m}M{s}S` with any subset of the components present, `DurationHours`
returns `h + m/60 + s/3600`; for every string not of this form it
returns 0.5. -/
theorem C5_duration_hours :
    (∀ oh om os : Option (List Char),
        goodDigits oh = true → goodDigits om = true → goodDigits os = true →
        DurationHours (durationString oh om os) =
          (valOf oh : ℚ) + (valOf om : ℚ) / 60 + (valOf os : ℚ) / 3600) ∧
    (∀ t : String,
        (¬ ∃ oh om os, goodDigits oh = true ∧ goodDigits om = true ∧
            goodDigits os = true ∧ t = durationString oh om os) →
        DurationHours t = 1 / 2) := by
  constructor
  · intro oh om os h1 h2 h3
    unfold DurationHours
    rw [matchDuration_durationString oh om os h1 h2 h3]
  · intro t hne
    unfold DurationHours
    cases h : matchDuration t with
    | none => rfl
    | some v => exact absurd (matchDuration_some_form h) hne

/-- Witness for C5: `PT1H30M` parses to 1.5 hours, and the non-matching
string `XYZ` yields the 0.5-hour fallback. -/
theorem C5_duration_hours_witness :
    DurationHours (durationString (some ['1']) (some ['3', '0']) none) = 3 / 2 ∧
    DurationHours "XYZ" = 1 / 2 := by
  constructor
  · have h := C5_duration_hours.1 (some ['1']) (some ['3', '0']) none rfl rfl rfl
    rw [h, show valOf (some ['1']) = 1 from rfl, show valOf (some ['3', '0']) = 30 from rfl,
      show valOf (none : Option (List Char)) = 0 from rfl]
    norm_num
  · refine C5_duration_hours.2 "XYZ" ?_
    rintro ⟨oh, om, os, _, _, _, heq⟩
    have hd : ("XYZ" : String).data = (durationString oh om os).data := by rw [heq]
    have : 'X' = 'P' := by
      have h2 : ("XYZ" : String).data
          = 'P' :: 'T' :: (compData oh 'H' ++ (compData om 'M' ++ compData os 'S')) := hd
      exact List.head_eq_of_cons_eq h2
    exact absurd this (by decide)

/-! ## Timestamp normalisation (`ParsePeriodEnd`, source lines 72-92)

`ParsePeriodEnd` is modelled as the exact normalised string the source hands
to `datetime.fromisoformat`; since `fromisoformat` is a function of the
string, equal normalised strings denote equal instants. -/

/-- The trailing-`Z` step: `if s.endswith("Z"): s = s[:-1] + "+00:00"`. -/
def zToOffset (cs : List Char) : List Char :=
  if cs.getLast? = some 'Z' then cs.dropLast ++ ['+', '0', '0', ':', '0', '0'] else cs

/-- `s.split(".", 1)` when a dot is present: the text before the first dot
and the text after it. `none` when the string has no dot. -/
def splitFirstDot : List Char → Option (List Char × List Char)
  | [] => none
  | c :: rest =>
    if c = '.' then some ([], rest)
    else (splitFirstDot rest).map (fun p => (c :: p.1, p.2))

/-- `tail[:pos]` and `tail[pos:]` for `pos = max(tail.rfind("+"), tail.rfind("-"))`:
split at the last `+` or `-`, if any. -/
def splitAtLastSign : List Char → Option (List Char × List Char)
  | [] => none
  | c :: cs =>
    match splitAtLastSign cs with
    | some p => some (c :: p.1, p.2)
    | none => if c = '+' ∨ c = '-' then some ([], c :: cs) else none

/-- `frac.ljust(6, "0")` as applied by the source (frac already cut to 6). -/
def ljust6 (l : List Char) : List Char := l ++ List.replicate (6 - l.length) '0'

/-- The fractional-second normalisation (source lines 78-91). -/
def normalizeFraction (cs : List Char) : List Char :=
  match splitFirstDot cs with
  | none => cs
  | some (head, tail) =>
    match splitAtLastSign tail with
    | some (frac, tz) => head ++ '.' :: (ljust6 (frac.take 6) ++ tz)
    | none => head ++ '.' :: (ljust6 (tail.take 6) ++ ['+', '0', '0', ':', '0', '0'])

/-- Embedding of `ParsePeriodEnd`: the normalised string passed on to
`datetime.fromisoformat`. -/
def ParsePeriodEnd (s : String) : String := ⟨normalizeFraction (zToOffset s.data)⟩

lemma normalizeFraction_eq_of (cs head tail frac tz : List Char)
    (h1 : splitFirstDot cs = some (head, tail))
    (h2 : splitAtLastSign tail = some (frac, tz)) :
    normalizeFraction cs = head ++ '.' :: (ljust6 (frac.take 6) ++ tz) := by
  unfold normalizeFraction
  simp only [h1, h2]

lemma splitFirstDot_append (head tail : List Char) (h : '.' ∉ head) :
    splitFirstDot (head ++ '.' :: tail) = some (head, tail) := by
  induction head with
  | nil => simp [splitFirstDot]
  | cons a as ih =>
    have ha : ¬ a = '.' := fun e => h (by simp [e])
    have h2 := ih (fun hm => h (List.mem_cons_of_mem _ hm))
    simp [splitFirstDot, ha, h2]

lemma splitAtLastSign_none (l : List Char) (hp : '+' ∉ l) (hm : '-' ∉ l) :
    splitAtLastSign l = none := by
  induction l with
  | nil => rfl
  | cons a as ih =>
    have h2 := ih (fun m => hp (by simp [m])) (fun m => hm (by simp [m]))
    have ha : ¬(a = '+' ∨ a = '-') := by
      rintro (e | e)
      · exact hp (by simp [e])
      · exact hm (by simp [e])
    simp [splitAtLastSign, h2, ha]

lemma splitAtLastSign_append (frac : List Char) (c : Char) (rest : List Char)
    (hfrac : ∀ x ∈ frac, ¬ x = '+' ∧ ¬ x = '-') (hc : c = '+' ∨ c = '-')
    (hp : '+' ∉ rest) (hm : '-' ∉ rest) :
    splitAtLastSign (frac ++ c :: rest) = some (frac, c :: rest) := by
  induction frac with
  | nil => simp [splitAtLastSign, splitAtLastSign_none rest hp hm, hc]
  | cons a as ih =>
    have h2 := ih (fun x hx => hfrac x (by simp [hx]))
    simp [splitAtLastSign, h2]

/-- Claim C6: (a) a timestamp ending in `Z` is parsed to the same instant as
the same timestamp with `Z` replaced by `+00:00` (the two calls hand
`fromisoformat` the same string); (b) a 7-digit fractional part is truncated
to its first 6 digits — not rounded — and the integer-second head and the
timezone suffix are left unchanged. -/
theorem C6_parse_period_end :
    (∀ s : String, s.data.getLast? = some 'Z' →
        ParsePeriodEnd s = ParsePeriodEnd ⟨s.data.dropLast ++ ['+', '0', '0', ':', '0', '0']⟩) ∧
    (∀ head frac tz : List Char, '.' ∉ head →
        frac.length = 7 → (∀ x ∈ frac, x.isDigit) →
        (∃ c rest, tz = c :: rest ∧ (c = '+' ∨ c = '-') ∧
            '+' ∉ rest ∧ '-' ∉ rest ∧ 'Z' ∉ rest) →
        ParsePeriodEnd ⟨head ++ '.' :: (frac ++ tz)⟩
          = ⟨head ++ '.' :: (frac.take 6 ++ tz)⟩) := by
  constructor
  · intro s hz
    unfold ParsePeriodEnd
    have h1 : zToOffset s.data = s.data.dropLast ++ ['+', '0', '0', ':', '0', '0'] := by
      unfold zToOffset
      rw [if_pos hz]
    have h2 : zToOffset ((⟨s.data.dropLast ++ ['+', '0', '0', ':', '0', '0']⟩ : String).data)
        = s.data.dropLast ++ ['+', '0', '0', ':', '0', '0'] := by
      show zToOffset (s.data.dropLast ++ ['+', '0', '0', ':', '0', '0']) = _
      unfold zToOffset
      rw [List.getLast?_append_of_ne_nil _ (by simp)]
      simp
    rw [h1, h2]
  · rintro head frac tz hnd hlen hdig ⟨c, rest, htz, hc, hp, hm, hnz⟩
    unfold ParsePeriodEnd
    have hz : zToOffset (((⟨head ++ '.' :: (frac ++ tz)⟩ : String)).data)
        = head ++ '.' :: (frac ++ tz) := by
      show zToOffset (head ++ '.' :: (frac ++ tz)) = _
      unfold zToOffset
      rw [if_neg ?_]
      have hassoc : head ++ '.' :: (frac ++ tz) = (head ++ '.' :: frac) ++ tz := by
        simp
      rw [hassoc, List.getLast?_append_of_ne_nil _ (by simp [htz])]
      intro hlast
      have hmem : 'Z' ∈ tz := by
        rcases tz with _ | ⟨d, ds⟩
        · simp at hlast
        · exact List.mem_of_mem_getLast? hlast
      rw [htz] at hmem
      rcases List.mem_cons.mp hmem with he | he
      · rcases hc with e | e <;> rw [e] at he <;> exact absurd he.symm (by decide)
      · exact hnz he
    rw [hz]
    have hsigns : ∀ x ∈ frac, ¬ x = '+' ∧ ¬ x = '-' := by
      intro x hx
      have hd := hdig x hx
      constructor <;> intro e <;> rw [e] at hd <;> exact absurd hd (by decide)
    have h2 : splitAtLastSign (frac ++ tz) = some (frac, tz) := by
      rw [htz]
      exact splitAtLastSign_append frac c rest hsigns hc hp hm
    rw [normalizeFraction_eq_of (head ++ '.' :: (frac ++ tz)) head (frac ++ tz) frac tz
      (splitFirstDot_append head (frac ++ tz) hnd) h2]
    have hlj : ljust6 (frac.take 6) = frac.take 6 := by
      unfold ljust6
      rw [List.length_take, hlen]
      simp
    rw [hlj]

/-- Witness for C6: a concrete Solcast-style timestamp with a trailing `Z`
and 7 fractional digits. -/
theorem C6_parse_period_end_witness :
    ParsePeriodEnd "2025-08-10T04:00:00.0000000Z"
      = ParsePeriodEnd "2025-08-10T04:00:00.0000000+00:00" ∧
    ParsePeriodEnd "2025-08-10T04:00:00.1234567+00:00"
      = "2025-08-10T04:00:00.123456+00:00" := by
  constructor
  · have h := C6_parse_period_end.1 "2025-08-10T04:00:00.0000000Z" (by decide)
    exact h
  · have h := C6_parse_period_end.2 "2025-08-10T04:00:00".data
      ['1', '2', '3', '4', '5', '6', '7'] ['+', '0', '0', ':', '0', '0']
      (by decide) (by decide) (by decide)
      ⟨'+', ['0', '0', ':', '0', '0'], rfl, Or.inl rfl, by decide, by decide, by decide⟩
    exact h

/-! ## Aggregation (`KwhByDay`, source lines 221-261)

The `period_end` of a forecast interval, parsed and converted to the local zone,
is modelled as linear local time in minutes (`Int`); the local calendar date
is the floor of division by 1440.  Python floats become rationals. -/

/-- One element of the `forecasts` array.  `period = none` models a missing
key; `period = some ""` models a present-but-falsy value (both fall back to
the carried value via `row.get("period", last_period) or last_period`). -/
structure ForecastRow where
  pv_estimate : Option ℚ
  pv_estimate90 : Option ℚ
  period : Option String
  period_end : Int
deriving DecidableEq

/-- Local calendar date (`t_local.date()`) of a local time in minutes. -/
def dateOfMin (t : Int) : Int := Int.fdiv t 1440

/-- `per = row.get("period", last_period) or last_period` (source line 235). -/
def resolveStep (last : String) (p : Option String) : String :=
  match p with
  | none => last
  | some q => if q = "" then last else q

/-- `last_period = forecasts[0].get("period", "PT30M")` (source line 229). -/
def initPeriod (rows : List ForecastRow) : String :=
  match rows with
  | [] => "PT30M"
  | r :: _ => r.period.getD "PT30M"

/-- The quantities the loop body computes for one interval: the resolved
period string, the local bucket date, the local end time, and the two
energy contributions `pv_estimate * hours` and `pv_estimate90 * hours`. -/
structure Contrib where
  per : String
  day : Int
  tloc : Int
  cm : ℚ
  co : ℚ
deriving DecidableEq

def mkContrib (per : String) (r : ForecastRow) : Contrib :=
  let mean := r.pv_estimate.getD 0
  let opt := r.pv_estimate90.getD mean
  ⟨per, dateOfMin r.period_end, r.period_end, mean * DurationHours per, opt * DurationHours per⟩

/-- Per-row contributions with the carried period resolved, before the
"today" filter is applied. -/
def contribs (last : String) : List ForecastRow → List Contrib
  | [] => []
  | r :: rest =>
    mkContrib (resolveStep last r.period) r
      :: contribs (resolveStep last r.period) rest

/-- `sums.setdefault(day_key, ...)` followed by `+=` (source lines 247-249),
on an insertion-ordered association list. -/
def addToSums : List (Int × ℚ × ℚ) → Int → ℚ → ℚ → List (Int × ℚ × ℚ)
  | [], day, dm, dopt => [(day, dm, dopt)]
  | e :: rest, day, dm, dopt =>
    if e.1 = day then (e.1, e.2.1 + dm, e.2.2 + dopt) :: rest
    else e :: addToSums rest day dm dopt

/-- The aggregation loop (source lines 232-249). -/
def kwhLoop (now : Int) : String → List (Int × ℚ × ℚ) → List ForecastRow → List (Int × ℚ × ℚ)
  | _, sums, [] => sums
  | last, sums, r :: rest =>
    let c := mkContrib (resolveStep last r.period) r
    if c.day = dateOfMin now ∧ c.tloc < now then
      kwhLoop now c.per sums rest
    else
      kwhLoop now c.per (addToSums sums c.day c.cm c.co) rest

/-- One output row (source lines 253-260). -/
structure DailyRow where
  day : Int
  kwh_mean : ℚ
  kwh_opt : ℚ
  is_today : Bool
deriving DecidableEq

/-- Embedding of `KwhByDay`. -/
def KwhByDay (data : List ForecastRow) (now : Int) : List DailyRow :=
  match data with
  | [] => []
  | _ :: _ =>
    let sums := kwhLoop now (initPeriod data) [] data
    (List.insertionSort (fun a b => a.1 ≤ b.1) sums).map
      (fun e => ⟨e.1, e.2.1, e.2.2, e.1 == dateOfMin now⟩)

/-- Mean-kWh total reported for day `d` (0 when `d` has no row). -/
def dayMean (rows : List DailyRow) (d : Int) : ℚ :=
  match rows.find? (fun r => r.day == d) with
  | some r => r.kwh_mean
  | none => 0

/-- Optimistic-kWh total reported for day `d` (0 when `d` has no row). -/
def dayOpt (rows : List DailyRow) (d : Int) : ℚ :=
  match rows.find? (fun r => r.day == d) with
  | some r => r.kwh_opt
  | none => 0

/-- The "today" filter of source line 244, as a keep-predicate: an interval
is dropped exactly when its bucket date is the date of now and its local end time is
strictly before `now`. -/
def keepRow (now : Int) (c : Contrib) : Bool :=
  !(c.day == dateOfMin now && decide (c.tloc < now))

def sumsMeanAt (sums : List (Int × ℚ × ℚ)) (d : Int) : ℚ :=
  match sums.find? (fun e => e.1 == d) with
  | some e => e.2.1
  | none => 0

def sumsOptAt (sums : List (Int × ℚ × ℚ)) (d : Int) : ℚ :=
  match sums.find? (fun e => e.1 == d) with
  | some e => e.2.2
  | none => 0

def sumMeanAt (cs : List Contrib) (d : Int) : ℚ :=
  ((cs.filter (fun c => c.day == d)).map Contrib.cm).sum

def sumOptAt (cs : List Contrib) (d : Int) : ℚ :=
  ((cs.filter (fun c => c.day == d)).map Contrib.co).sum

lemma sumsMeanAt_addToSums (sums : List (Int × ℚ × ℚ)) (day : Int) (dm dopt : ℚ) (d : Int) :
    sumsMeanAt (addToSums sums day dm dopt) d
      = if day = d then sumsMeanAt sums d + dm else sumsMeanAt sums d := by
  induction sums with
  | nil =>
    by_cases h : day = d
    · simp [addToSums, sumsMeanAt, List.find?_cons, h]
    · simp [addToSums, sumsMeanAt, List.find?_cons, h]
  | cons e rest ih =>
    by_cases he : e.1 = day
    · by_cases hd : day = d
      · simp [addToSums, sumsMeanAt, List.find?_cons, he, hd, he.trans hd]
      · have hed : ¬ e.1 = d := fun h2 => hd (he.symm.trans h2)
        simp [addToSums, sumsMeanAt, List.find?_cons, he, hd, hed]
    · by_cases hed : e.1 = d
      · have hd : ¬ day = d := fun h2 => he (hed.symm ▸ h2 ▸ rfl)
        have hdd : ¬ d = day := fun h2 => hd h2.symm
        simp [addToSums, sumsMeanAt, List.find?_cons, he, hed, hd, hdd]
      · have h2 := ih
        by_cases hd : day = d <;>
          simpa [addToSums, sumsMeanAt, List.find?_cons, he, hed, hd] using h2

lemma sumsOptAt_addToSums (sums : List (Int × ℚ × ℚ)) (day : Int) (dm dopt : ℚ) (d : Int) :
    sumsOptAt (addToSums sums day dm dopt) d
      = if day = d then sumsOptAt sums d + dopt else sumsOptAt sums d := by
  induction sums with
  | nil =>
    by_cases h : day = d
    · simp [addToSums, sumsOptAt, List.find?_cons, h]
    · simp [addToSums, sumsOptAt, List.find?_cons, h]
  | cons e rest ih =>
    by_cases he : e.1 = day
    · by_cases hd : day = d
      · simp [addToSums, sumsOptAt, List.find?_cons, he, hd, he.trans hd]
      · have hed : ¬ e.1 = d := fun h2 => hd (he.symm.trans h2)
        simp [addToSums, sumsOptAt, List.find?_cons, he, hd, hed]
    · by_cases hed : e.1 = d
      · have hd : ¬ day = d := fun h2 => he (hed.symm ▸ h2 ▸ rfl)
        have hdd : ¬ d = day := fun h2 => hd h2.symm
        simp [addToSums, sumsOptAt, List.find?_cons, he, hed, hd, hdd]
      · have h2 := ih
        by_cases hd : day = d <;>
          simpa [addToSums, sumsOptAt, List.find?_cons, he, hed, hd] using h2

lemma mem_keys_addToSums {sums : List (Int × ℚ × ℚ)} {day k : Int} {dm dopt : ℚ} :
    k ∈ (addToSums sums day dm dopt).map Prod.fst ↔ k ∈ sums.map Prod.fst ∨ k = day := by
  induction sums with
  | nil => simp [addToSums, eq_comm]
  | cons e rest ih =>
    unfold addToSums
    by_cases he : e.1 = day
    · rw [if_pos he]
      simp only [List.map_cons, List.mem_cons]
      constructor
      · rintro (h2 | h2)
        · exact Or.inl (Or.inl h2)
        · exact Or.inl (Or.inr h2)
      · rintro ((h2 | h2) | h2)
        · exact Or.inl h2
        · exact Or.inr h2
        · exact Or.inl (by rw [h2, ← he])
    · rw [if_neg he]
      simp only [List.map_cons, List.mem_cons, ih]
      tauto

lemma addToSums_keys_nodup {sums : List (Int × ℚ × ℚ)} {day : Int} {dm dopt : ℚ}
    (h : (sums.map Prod.fst).Nodup) :
    ((addToSums sums day dm dopt).map Prod.fst).Nodup := by
  induction sums with
  | nil => simp [addToSums]
  | cons e rest ih =>
    rw [List.map_cons, List.nodup_cons] at h
    unfold addToSums
    by_cases he : e.1 = day
    · rw [if_pos he]
      simp only [List.map_cons, List.nodup_cons]
      exact h
    · rw [if_neg he]
      simp only [List.map_cons, List.nodup_cons]
      refine ⟨?_, ih h.2⟩
      rw [mem_keys_addToSums]
      rintro (hm | hm)
      · exact h.1 hm
      · exact he hm

lemma kwhLoop_keys_nodup (now : Int) (rows : List ForecastRow) :
    ∀ (last : String) (sums : List (Int × ℚ × ℚ)),
      (sums.map Prod.fst).Nodup → ((kwhLoop now last sums rows).map Prod.fst).Nodup := by
  induction rows with
  | nil => intro last sums h; exact h
  | cons r rest ih =>
    intro last sums h
    unfold kwhLoop
    by_cases hskip : (mkContrib (resolveStep last r.period) r).day = dateOfMin now ∧
        (mkContrib (resolveStep last r.period) r).tloc < now
    · rw [if_pos hskip]
      exact ih _ _ h
    · rw [if_neg hskip]
      exact ih _ _ (addToSums_keys_nodup h)

lemma find?_eq_some_of_unique {α : Type} (p : α → Bool) {l : List α} {e : α}
    (he : e ∈ l) (hpe : p e = true) (huniq : ∀ x ∈ l, p x = true → x = e) :
    l.find? p = some e := by
  induction l with
  | nil => cases he
  | cons a as ih =>
    by_cases hpa : p a = true
    · have ha : a = e := huniq a (by simp) hpa
      rw [List.find?_cons_of_pos _ hpa, ha]
    · rcases List.mem_cons.mp he with he2 | he2
      · rw [he2] at hpe; exact absurd hpe hpa
      · rw [List.find?_cons_of_neg _ hpa]
        exact ih he2 (fun x hx hpx => huniq x (by simp [hx]) hpx)

/-- `find?` by key is invariant under permutation when keys are unique. -/
lemma find?_key_perm {l l2 : List (Int × ℚ × ℚ)} (hperm : l.Perm l2)
    (hnd : (l.map Prod.fst).Nodup) (d : Int) :
    l.find? (fun e => e.1 == d) = l2.find? (fun e => e.1 == d) := by
  cases h1 : l.find? (fun e => e.1 == d) with
  | none =>
    rw [List.find?_eq_none] at h1
    symm
    rw [List.find?_eq_none]
    intro x hx
    exact h1 x (hperm.mem_iff.mpr hx)
  | some e =>
    have hmem : e ∈ l := List.mem_of_find?_eq_some h1
    have hpe := List.find?_some h1
    have hinj := List.inj_on_of_nodup_map hnd
    refine (find?_eq_some_of_unique _ (hperm.mem_iff.mp hmem) hpe ?_).symm
    intro x hx hpx
    refine hinj (hperm.mem_iff.mpr hx) hmem ?_
    rw [beq_iff_eq] at hpe hpx
    rw [hpx, hpe]

lemma sumsMeanAt_perm {l l2 : List (Int × ℚ × ℚ)} (hperm : l.Perm l2)
    (hnd : (l.map Prod.fst).Nodup) (d : Int) : sumsMeanAt l d = sumsMeanAt l2 d := by
  unfold sumsMeanAt
  rw [find?_key_perm hperm hnd]

lemma sumsOptAt_perm {l l2 : List (Int × ℚ × ℚ)} (hperm : l.Perm l2)
    (hnd : (l.map Prod.fst).Nodup) (d : Int) : sumsOptAt l d = sumsOptAt l2 d := by
  unfold sumsOptAt
  rw [find?_key_perm hperm hnd]

@[simp] lemma mkContrib_per (p : String) (r : ForecastRow) : (mkContrib p r).per = p := rfl

@[simp] lemma mkContrib_day (p : String) (r : ForecastRow) :
    (mkContrib p r).day = dateOfMin r.period_end := rfl

@[simp] lemma mkContrib_tloc (p : String) (r : ForecastRow) :
    (mkContrib p r).tloc = r.period_end := rfl

@[simp] lemma mkContrib_cm (p : String) (r : ForecastRow) :
    (mkContrib p r).cm = r.pv_estimate.getD 0 * DurationHours p := rfl

@[simp] lemma mkContrib_co (p : String) (r : ForecastRow) :
    (mkContrib p r).co = r.pv_estimate90.getD (r.pv_estimate.getD 0) * DurationHours p := rfl

lemma contribs_cons (last : String) (r : ForecastRow) (rest : List ForecastRow) :
    contribs last (r :: rest)
      = mkContrib (resolveStep last r.period) r
          :: contribs (resolveStep last r.period) rest := rfl

lemma kwhLoop_cons (now : Int) (last : String) (sums : List (Int × ℚ × ℚ))
    (r : ForecastRow) (rest : List ForecastRow) :
    kwhLoop now last sums (r :: rest)
      = if (mkContrib (resolveStep last r.period) r).day = dateOfMin now ∧
           (mkContrib (resolveStep last r.period) r).tloc < now
        then kwhLoop now (mkContrib (resolveStep last r.period) r).per sums rest
        else kwhLoop now (mkContrib (resolveStep last r.period) r).per
               (addToSums sums (mkContrib (resolveStep last r.period) r).day
                 (mkContrib (resolveStep last r.period) r).cm
                 (mkContrib (resolveStep last r.period) r).co) rest := rfl

lemma sumMeanAt_cons (c : Contrib) (cs : List Contrib) (d : Int) :
    sumMeanAt (c :: cs) d = (if c.day = d then c.cm else 0) + sumMeanAt cs d := by
  unfold sumMeanAt
  by_cases h : c.day = d
  · simp [List.filter_cons, h]
  · simp [List.filter_cons, h]

lemma sumOptAt_cons (c : Contrib) (cs : List Contrib) (d : Int) :
    sumOptAt (c :: cs) d = (if c.day = d then c.co else 0) + sumOptAt cs d := by
  unfold sumOptAt
  by_cases h : c.day = d
  · simp [List.filter_cons, h]
  · simp [List.filter_cons, h]

lemma keepRow_false_iff (now : Int) (c : Contrib) :
    keepRow now c = false ↔ (c.day = dateOfMin now ∧ c.tloc < now) := by
  simp [keepRow]

lemma keepRow_true_iff (now : Int) (c : Contrib) :
    keepRow now c = true ↔ ¬(c.day = dateOfMin now ∧ c.tloc < now) := by
  rw [← keepRow_false_iff now c]
  cases h : keepRow now c <;> simp

/-- Invariant of the aggregation loop: the accumulated totals for a day equal
the starting totals plus the sum of the kept contributions. -/
lemma kwhLoop_meanAt (now : Int) (rows : List ForecastRow) :
    ∀ (last : String) (sums : List (Int × ℚ × ℚ)) (d : Int),
      sumsMeanAt (kwhLoop now last sums rows) d
        = sumsMeanAt sums d + sumMeanAt ((contribs last rows).filter (keepRow now)) d := by
  induction rows with
  | nil =>
    intro last sums d
    simp [kwhLoop, contribs, sumMeanAt]
  | cons r rest ih =>
    intro last sums d
    rw [kwhLoop_cons, contribs_cons, List.filter_cons, mkContrib_per]
    by_cases hskip : (mkContrib (resolveStep last r.period) r).day = dateOfMin now ∧
        (mkContrib (resolveStep last r.period) r).tloc < now
    · rw [if_pos hskip, (keepRow_false_iff now _).mpr hskip]
      rw [ih (resolveStep last r.period) sums d]
      rfl
    · rw [if_neg hskip, (keepRow_true_iff now _).mpr hskip, if_pos rfl]
      rw [ih (resolveStep last r.period) _ d, sumsMeanAt_addToSums, sumMeanAt_cons]
      by_cases hd : (mkContrib (resolveStep last r.period) r).day = d
      · rw [if_pos hd, if_pos hd]
        ring
      · rw [if_neg hd, if_neg hd]
        ring

lemma kwhLoop_optAt (now : Int) (rows : List ForecastRow) :
    ∀ (last : String) (sums : List (Int × ℚ × ℚ)) (d : Int),
      sumsOptAt (kwhLoop now last sums rows) d
        = sumsOptAt sums d + sumOptAt ((contribs last rows).filter (keepRow now)) d := by
  induction rows with
  | nil =>
    intro last sums d
    simp [kwhLoop, contribs, sumOptAt]
  | cons r rest ih =>
    intro last sums d
    rw [kwhLoop_cons, contribs_cons, List.filter_cons, mkContrib_per]
    by_cases hskip : (mkContrib (resolveStep last r.period) r).day = dateOfMin now ∧
        (mkContrib (resolveStep last r.period) r).tloc < now
    · rw [if_pos hskip, (keepRow_false_iff now _).mpr hskip]
      rw [ih (resolveStep last r.period) sums d]
      rfl
    · rw [if_neg hskip, (keepRow_true_iff now _).mpr hskip, if_pos rfl]
      rw [ih (resolveStep last r.period) _ d, sumsOptAt_addToSums, sumOptAt_cons]
      by_cases hd : (mkContrib (resolveStep last r.period) r).day = d
      · rw [if_pos hd, if_pos hd]
        ring
      · rw [if_neg hd, if_neg hd]
        ring

lemma dayMean_map_g (l : List (Int × ℚ × ℚ)) (now d : Int) :
    dayMean (l.map (fun e => (⟨e.1, e.2.1, e.2.2, e.1 == dateOfMin now⟩ : DailyRow))) d
      = sumsMeanAt l d := by
  induction l with
  | nil => rfl
  | cons e rest ih =>
    unfold dayMean sumsMeanAt at *
    rw [List.map_cons]
    by_cases he : e.1 = d
    · rw [List.find?_cons_of_pos _ (by simp [he]), List.find?_cons_of_pos _ (by simp [he])]
    · rw [List.find?_cons_of_neg _ (by simp [he]), List.find?_cons_of_neg _ (by simp [he])]
      exact ih

lemma dayOpt_map_g (l : List (Int × ℚ × ℚ)) (now d : Int) :
    dayOpt (l.map (fun e => (⟨e.1, e.2.1, e.2.2, e.1 == dateOfMin now⟩ : DailyRow))) d
      = sumsOptAt l d := by
  induction l with
  | nil => rfl
  | cons e rest ih =>
    unfold dayOpt sumsOptAt at *
    rw [List.map_cons]
    by_cases he : e.1 = d
    · rw [List.find?_cons_of_pos _ (by simp [he]), List.find?_cons_of_pos _ (by simp [he])]
    · rw [List.find?_cons_of_neg _ (by simp [he]), List.find?_cons_of_neg _ (by simp [he])]
      exact ih

lemma dayMean_KwhByDay (data : List ForecastRow) (now d : Int) :
    dayMean (KwhByDay data now) d = sumsMeanAt (kwhLoop now (initPeriod data) [] data) d := by
  cases data with
  | nil => rfl
  | cons r rest =>
    rw [show KwhByDay (r :: rest) now
        = ((List.insertionSort (fun a b => a.1 ≤ b.1)
            (kwhLoop now (initPeriod (r :: rest)) [] (r :: rest))).map
            (fun e => (⟨e.1, e.2.1, e.2.2, e.1 == dateOfMin now⟩ : DailyRow))) from rfl]
    rw [dayMean_map_g]
    exact (sumsMeanAt_perm
      (List.perm_insertionSort (fun a b => a.1 ≤ b.1) _).symm
      (kwhLoop_keys_nodup now (r :: rest) _ [] (by simp)) d).symm

lemma dayOpt_KwhByDay (data : List ForecastRow) (now d : Int) :
    dayOpt (KwhByDay data now) d = sumsOptAt (kwhLoop now (initPeriod data) [] data) d := by
  cases data with
  | nil => rfl
  | cons r rest =>
    rw [show KwhByDay (r :: rest) now
        = ((List.insertionSort (fun a b => a.1 ≤ b.1)
            (kwhLoop now (initPeriod (r :: rest)) [] (r :: rest))).map
            (fun e => (⟨e.1, e.2.1, e.2.2, e.1 == dateOfMin now⟩ : DailyRow))) from rfl]
    rw [dayOpt_map_g]
    exact (sumsOptAt_perm
      (List.perm_insertionSort (fun a b => a.1 ≤ b.1) _).symm
      (kwhLoop_keys_nodup now (r :: rest) _ [] (by simp)) d).symm

/-- The central aggregation characterization: the reported totals for any day
are exactly the sum of the per-interval contributions surviving the
"today" filter. -/
lemma kwh_totals_eq (data : List ForecastRow) (now d : Int) :
    dayMean (KwhByDay data now) d
      = sumMeanAt ((contribs (initPeriod data) data).filter (keepRow now)) d ∧
    dayOpt (KwhByDay data now) d
      = sumOptAt ((contribs (initPeriod data) data).filter (keepRow now)) d := by
  constructor
  · rw [dayMean_KwhByDay, kwhLoop_meanAt now data (initPeriod data) [] d]
    show (0 : ℚ) + _ = _
    rw [zero_add]
  · rw [dayOpt_KwhByDay, kwhLoop_optAt now data (initPeriod data) [] d]
    show (0 : ℚ) + _ = _
    rw [zero_add]

/-- Claim C4: in `KwhByDay`, an interval whose local bucket date equals
the date of now is excluded from the totals exactly when its local end time is
strictly before `now_local` (so an interval ending exactly at `now_local`
is included), and intervals bucketed on any other date are never dropped by
this filter; the reported per-day totals are precisely the sums of the
surviving contributions. -/
theorem C4_today_filter :
    (∀ (data : List ForecastRow) (now d : Int),
        dayMean (KwhByDay data now) d
          = sumMeanAt ((contribs (initPeriod data) data).filter (keepRow now)) d ∧
        dayOpt (KwhByDay data now) d
          = sumOptAt ((contribs (initPeriod data) data).filter (keepRow now)) d) ∧
    (∀ (now : Int) (c : Contrib), c.day = dateOfMin now → c.tloc < now →
        keepRow now c = false) ∧
    (∀ (now : Int) (c : Contrib), c.day = dateOfMin now → now ≤ c.tloc →
        keepRow now c = true) ∧
    (∀ (now : Int) (c : Contrib), c.day ≠ dateOfMin now → keepRow now c = true) := by
  refine ⟨kwh_totals_eq, ?_, ?_, ?_⟩
  · intro now c h1 h2
    exact (keepRow_false_iff now c).mpr ⟨h1, h2⟩
  · intro now c h1 h2
    exact (keepRow_true_iff now c).mpr (fun h => absurd h.2 (not_lt.mpr h2))
  · intro now c h1
    exact (keepRow_true_iff now c).mpr (fun h => h1 h.1)

/-- Witness for C4: the boundary interval ending exactly at `now` is kept,
an interval one minute earlier is dropped, and an interval on another date
is kept. -/
theorem C4_today_filter_witness :
    keepRow 600 ⟨"PT30M", 0, 600, 1, 1⟩ = true ∧
    keepRow 600 ⟨"PT30M", 0, 599, 1, 1⟩ = false ∧
    keepRow 600 ⟨"PT30M", 5, 7800, 1, 1⟩ = true := by
  refine ⟨?_, ?_, ?_⟩
  · exact C4_today_filter.2.2.1 600 ⟨"PT30M", 0, 600, 1, 1⟩ (by decide) (by decide)
  · exact C4_today_filter.2.1 600 ⟨"PT30M", 0, 599, 1, 1⟩ (by decide) (by decide)
  · exact C4_today_filter.2.2.2 600 ⟨"PT30M", 5, 7800, 1, 1⟩ (by decide)

lemma kwhLoop_nil (now : Int) (last : String) (sums : List (Int × ℚ × ℚ)) :
    kwhLoop now last sums [] = sums := rfl

lemma durationHours_PT30M : DurationHours "PT30M" = 1 / 2 := by
  unfold DurationHours
  rw [show matchDuration "PT30M" = some (0, 30, 0) from rfl]
  norm_num

/-- Claim C9: two `PT30M` intervals with mean powers 2.0 and 4.0 kW and
optimistic powers 3.0 and 5.0 kW, both ending today at or after `now_local`,
aggregate to a single row for today with `kwh_mean = 3.0`, `kwh_opt = 4.0`
and `is_today = true`.  (`now` is 10:00 on local day 20000; the intervals
end at 10:30 and 11:00.) -/
theorem C9_two_interval_scenario :
    KwhByDay [⟨some 2, some 3, some "PT30M", 28800630⟩,
              ⟨some 4, some 5, some "PT30M", 28800660⟩] 28800600
      = [⟨20000, 3, 4, true⟩] := by
  have hloop : kwhLoop 28800600 "PT30M" []
      [⟨some 2, some 3, some "PT30M", 28800630⟩,
       ⟨some 4, some 5, some "PT30M", 28800660⟩] = [(20000, 3, 4)] := by
    rw [kwhLoop_cons, if_neg (by decide), kwhLoop_cons, if_neg (by decide), kwhLoop_nil]
    simp only [mkContrib_day, mkContrib_tloc, mkContrib_cm, mkContrib_co, mkContrib_per]
    norm_num [addToSums, resolveStep, durationHours_PT30M, dateOfMin]
    rw [show Int.fdiv 28800630 1440 = 20000 from by decide,
        show Int.fdiv 28800660 1440 = 20000 from by decide]
    simp
  show (List.insertionSort (fun a b => a.1 ≤ b.1)
      (kwhLoop 28800600 "PT30M" []
        [⟨some 2, some 3, some "PT30M", 28800630⟩,
         ⟨some 4, some 5, some "PT30M", 28800660⟩])).map
      (fun e => (⟨e.1, e.2.1, e.2.2, e.1 == dateOfMin 28800600⟩ : DailyRow)) = _
  rw [hloop]
  norm_num [List.insertionSort, dateOfMin]
  decide

lemma durationHours_PT1H : DurationHours "PT1H" = 1 := by
  unfold DurationHours
  rw [show matchDuration "PT1H" = some (1, 0, 0) from rfl]
  norm_num

lemma durationHours_XX : DurationHours "XX" = 1 / 2 := by
  unfold DurationHours
  rw [show matchDuration "XX" = none from rfl]

/-- Modelled from the wording of claim C3, used only to refute it: carry forward
the last successfully-resolved period, i.e. update the carried default only
when a present period string actually parses.  Returns the period used for
the current row and the updated carry. -/
def resolveStepSpec (lastGood : String) (p : Option String) : String × String :=
  match p with
  | none => (lastGood, lastGood)
  | some q =>
    if q = "" then (lastGood, lastGood)
    else (q, if (matchDuration q).isSome then q else lastGood)

/-- Per-row contributions under the resolution rule of claim C3. -/
def contribsSpec (lastGood : String) : List ForecastRow → List Contrib
  | [] => []
  | r :: rest =>
    mkContrib (resolveStepSpec lastGood r.period).1 r
      :: contribsSpec (resolveStepSpec lastGood r.period).2 rest

/-- Three intervals on local day 20000: period `PT1H`, unparsable period
`XX`, and a missing period; `now = 0` lies on a different day so nothing is
filtered. -/
def c3data : List ForecastRow :=
  [⟨some 1, some 1, some "PT1H", 28800000⟩,
   ⟨some 1, some 1, some "XX", 28800030⟩,
   ⟨some 1, some 1, none, 28800060⟩]

/-- Counterexample to claim C3 as stated: the code charges the period-less
third interval 0.5 h, inherited from the unparsable string `XX`, whereas the
claim predicts it inherits the last successfully-resolved period `PT1H`
(1 h).  The day totals differ: 2 kWh (code) vs 5/2 kWh (claim). -/
theorem C3_counterexample :
    dayMean (KwhByDay c3data 0) 20000 = 2 ∧
    sumMeanAt ((contribsSpec "PT30M" c3data).filter (keepRow 0)) 20000 = 5 / 2 ∧
    dayMean (KwhByDay c3data 0) 20000
      ≠ sumMeanAt ((contribsSpec "PT30M" c3data).filter (keepRow 0)) 20000 := by
  have hday0 : dateOfMin 0 = 0 := by decide
  have hk : ∀ (c : Contrib), c.day = 20000 → keepRow 0 c = true := by
    intro c h
    rw [keepRow_true_iff]
    rintro ⟨h1, h2⟩
    rw [h, hday0] at h1
    exact absurd h1 (by decide)
  have hc : contribs (initPeriod c3data) c3data
      = [mkContrib "PT1H" ⟨some 1, some 1, some "PT1H", 28800000⟩,
         mkContrib "XX" ⟨some 1, some 1, some "XX", 28800030⟩,
         mkContrib "XX" ⟨some 1, some 1, none, 28800060⟩] := by
    simp [c3data, initPeriod, contribs, resolveStep]
  have hcs : contribsSpec "PT30M" c3data
      = [mkContrib "PT1H" ⟨some 1, some 1, some "PT1H", 28800000⟩,
         mkContrib "XX" ⟨some 1, some 1, some "XX", 28800030⟩,
         mkContrib "PT1H" ⟨some 1, some 1, none, 28800060⟩] := by
    simp [c3data, contribsSpec, resolveStepSpec,
      show (matchDuration "PT1H").isSome = true from rfl,
      show (matchDuration "XX").isSome = false from rfl]
  have hfil1 : (contribs (initPeriod c3data) c3data).filter (keepRow 0)
      = contribs (initPeriod c3data) c3data := by
    rw [List.filter_eq_self]
    intro c hmem
    rw [hc] at hmem
    simp only [List.mem_cons, List.not_mem_nil, or_false] at hmem
    rcases hmem with h | h | h <;> subst h <;>
      exact hk _ (by rw [mkContrib_day]; decide)
  have hfil2 : (contribsSpec "PT30M" c3data).filter (keepRow 0)
      = contribsSpec "PT30M" c3data := by
    rw [List.filter_eq_self]
    intro c hmem
    rw [hcs] at hmem
    simp only [List.mem_cons, List.not_mem_nil, or_false] at hmem
    rcases hmem with h | h | h <;> subst h <;>
      exact hk _ (by rw [mkContrib_day]; decide)
  have h1 : dayMean (KwhByDay c3data 0) 20000 = 2 := by
    rw [(kwh_totals_eq c3data 0 20000).1, hfil1, hc]
    rw [sumMeanAt_cons, sumMeanAt_cons, sumMeanAt_cons]
    simp only [mkContrib_day, mkContrib_cm]
    rw [show dateOfMin 28800000 = 20000 from by decide,
        show dateOfMin 28800030 = 20000 from by decide,
        show dateOfMin 28800060 = 20000 from by decide]
    norm_num [durationHours_PT1H, durationHours_XX, sumMeanAt]
  have h2 : sumMeanAt ((contribsSpec "PT30M" c3data).filter (keepRow 0)) 20000 = 5 / 2 := by
    rw [hfil2, hcs]
    rw [sumMeanAt_cons, sumMeanAt_cons, sumMeanAt_cons]
    simp only [mkContrib_day, mkContrib_cm]
    rw [show dateOfMin 28800000 = 20000 from by decide,
        show dateOfMin 28800030 = 20000 from by decide,
        show dateOfMin 28800060 = 20000 from by decide]
    norm_num [durationHours_PT1H, durationHours_XX, sumMeanAt]
  refine ⟨h1, h2, ?_⟩
  rw [h1, h2]
  norm_num

/-- Claim C3 (corrected): the aggregation carries forward the last *present*
non-empty period string — whether or not it parses — as the default for
later intervals missing a period; the carry is seeded with the period string of the first row, or `PT30M` when the first row has none.  Consequently an
intervening interval whose period fails to parse *does* change the duration
later period-less intervals inherit. -/
theorem C3_amended_carry :
    (∀ (last : String) (r : ForecastRow) (rest : List ForecastRow), r.period = none →
        contribs last (r :: rest) = mkContrib last r :: contribs last rest) ∧
    (∀ (last q : String) (r : ForecastRow) (rest : List ForecastRow),
        r.period = some q → q ≠ "" →
        contribs last (r :: rest) = mkContrib q r :: contribs q rest) ∧
    (∀ (r : ForecastRow) (rest : List ForecastRow), r.period = none →
        initPeriod (r :: rest) = "PT30M") ∧
    (∀ (data : List ForecastRow) (now d : Int),
        dayMean (KwhByDay data now) d
          = sumMeanAt ((contribs (initPeriod data) data).filter (keepRow now)) d) := by
  refine ⟨?_, ?_, ?_, ?_⟩
  · intro last r rest h
    rw [contribs_cons]
    simp [resolveStep, h]
  · intro last q r rest h hq
    rw [contribs_cons]
    simp [resolveStep, h, hq]
  · intro r rest h
    show r.period.getD "PT30M" = "PT30M"
    simp [h]
  · intro data now d
    exact (kwh_totals_eq data now d).1

/-- Witness for the corrected C3: a period-less row inherits the carried
string; a present unparsable `XX` replaces the carry; a period-less first
row seeds the carry with `PT30M`. -/
theorem C3_amended_carry_witness :
    contribs "PT1H" [⟨some 1, some 1, none, 28800060⟩]
      = [mkContrib "PT1H" ⟨some 1, some 1, none, 28800060⟩] ∧
    contribs "PT1H" [⟨some 1, some 1, some "XX", 28800030⟩]
      = [mkContrib "XX" ⟨some 1, some 1, some "XX", 28800030⟩] ∧
    initPeriod [⟨some 1, some 1, none, 28800060⟩] = "PT30M" := by
  refine ⟨?_, ?_, ?_⟩
  · exact C3_amended_carry.1 "PT1H" _ [] rfl
  · exact C3_amended_carry.2.1 "PT1H" "XX" _ [] rfl (by decide)
  · exact C3_amended_carry.2.2.1 _ [] rfl

/-! ## Cache manager (`LoadOrRefreshCache`, source lines 142-218)

The interaction of the function with the filesystem and the network is supplied
as an explicit environment: the outcome of each external operation the
Python code can perform (`exists`, `stat`, `unlink`, the composite fetch,
`write_text`, `read_text` + `json.loads`).  The document type is abstract,
as the cache manager treats documents opaquely. -/

/-- Outcome of `FetchForecast()` as observed by `LoadOrRefreshCache`:
success, an `urllib.error.HTTPError`, or any other exception (URLError,
RuntimeError from missing credentials, timeout, ...). -/
inductive FetchOutcome (Doc : Type) where
  | ok (d : Doc)
  | httpError (code : Nat)
  | genericError
deriving DecidableEq

structure CacheEnv (Doc : Type) where
  cacheExists : Bool
  statMtime : Option Int
  unlinkOk : Bool
  fetch : FetchOutcome Doc
  writeOk : Bool
  readDoc : Option Doc
deriving DecidableEq

/-- The ways `LoadOrRefreshCache` can raise: the HTTP-specific
`RuntimeError`, the generic no-cache `RuntimeError`, and a propagated
read/parse exception. -/
inductive CacheErr where
  | httpNoFallback (code : Nat)
  | noCacheNoFetch
  | readFailure
deriving DecidableEq

/-- The local state after the staleness check (source lines 145-170):
`need_fetch`, `cache_is_stale`, whether the file still exists, and whether
the stale record was deleted. -/
structure CacheStatus where
  needFetch : Bool
  stale : Bool
  existsNow : Bool
  deleted : Bool
deriving DecidableEq

/-- `timedelta(days=3)` in minutes. -/
def threeDaysMin : Int := 3 * 1440

def cacheStatus {Doc : Type} (env : CacheEnv Doc) (now : Int) : CacheStatus :=
  if env.cacheExists then
    match env.statMtime with
    | some mtime =>
      if now - mtime > threeDaysMin then
        if env.unlinkOk then ⟨true, false, false, true⟩
        else ⟨true, true, true, false⟩
      else if dateOfMin mtime = dateOfMin now then ⟨false, false, true, false⟩
      else ⟨true, false, true, false⟩
    | none => ⟨true, false, true, false⟩
  else ⟨true, false, false, false⟩

structure CacheResult (Doc : Type) where
  result : Except CacheErr Doc
  deletedStale : Bool

/-- The fallback path of the two exception handlers (source lines 176-214):
use the cached document if the file still exists and is not marked stale,
else raise `err`; a read/parse failure inside the handler propagates. -/
def fallbackRead {Doc : Type} (env : CacheEnv Doc) (st : CacheStatus)
    (err : CacheErr) : Except CacheErr Doc :=
  if st.existsNow ∧ ¬ st.stale then
    match env.readDoc with
    | some cached => .ok cached
    | none => .error .readFailure
  else .error err

/-- Embedding of `LoadOrRefreshCache`. -/
def LoadOrRefreshCache {Doc : Type} (env : CacheEnv Doc) (now : Int) : CacheResult Doc :=
  let st := cacheStatus env now
  if st.needFetch then
    match env.fetch with
    | .ok d =>
      if env.writeOk then ⟨.ok d, st.deleted⟩
      else ⟨fallbackRead env st .noCacheNoFetch, st.deleted⟩
    | .httpError code => ⟨fallbackRead env st (.httpNoFallback code), st.deleted⟩
    | .genericError => ⟨fallbackRead env st .noCacheNoFetch, st.deleted⟩
  else
    match env.readDoc with
    | some cached => ⟨.ok cached, st.deleted⟩
    | none => ⟨.error .readFailure, st.deleted⟩

/-- The exit code of `main` as determined by cache acquisition (source lines
267-271): any exception is printed and the process exits 1. -/
def mainExitCode {Doc : Type} (env : CacheEnv Doc) (now : Int) : Nat :=
  match (LoadOrRefreshCache env now).result with
  | .error _ => 1
  | .ok _ => 0

/-- Claim C7: a cache record older than 3 days is deleted, and a stale
record is never returned as a fallback — any result document comes from a
successful fetch (with a successful write); a failed deletion only marks
the record unusable and does not abort a run whose fetch-and-write
succeed. -/
theorem C7_stale_cache {Doc : Type} (env : CacheEnv Doc) (now mtime : Int)
    (hex : env.cacheExists = true) (hst : env.statMtime = some mtime)
    (hage : now - mtime > threeDaysMin) :
    (env.unlinkOk = true → (LoadOrRefreshCache env now).deletedStale = true) ∧
    (∀ d : Doc, (LoadOrRefreshCache env now).result = .ok d →
        env.fetch = .ok d ∧ env.writeOk = true) ∧
    (env.unlinkOk = false → ∀ d : Doc, env.fetch = .ok d → env.writeOk = true →
        (LoadOrRefreshCache env now).result = .ok d) := by
  refine ⟨?_, ?_, ?_⟩
  · intro hu
    rcases hf : env.fetch with d | code | _ <;> cases hw : env.writeOk <;>
      simp [LoadOrRefreshCache, cacheStatus, fallbackRead, hex, hst, hage, hf, hw, hu]
  · intro d hres
    rcases hf : env.fetch with d2 | code | _ <;> cases hw : env.writeOk <;>
      cases hu : env.unlinkOk <;> cases hr : env.readDoc <;>
      simp_all [LoadOrRefreshCache, cacheStatus, fallbackRead]
  · intro hu d hf hw
    simp [LoadOrRefreshCache, cacheStatus, fallbackRead, hex, hst, hage, hf, hw, hu]

/-- Witness for C7: a record 4321 minutes old (> 3 days): successful unlink
reports the deletion, and a failed unlink still returns the fresh fetch. -/
theorem C7_stale_cache_witness :
    (LoadOrRefreshCache (⟨true, some 0, true, .ok 7, true, some 9⟩ : CacheEnv Nat)
        4321).deletedStale = true ∧
    (LoadOrRefreshCache (⟨true, some 0, false, .ok 7, true, some 9⟩ : CacheEnv Nat)
        4321).result = .ok 7 := by
  constructor
  · exact (C7_stale_cache (⟨true, some 0, true, .ok 7, true, some 9⟩ : CacheEnv Nat)
      4321 0 rfl rfl (by decide)).1 rfl
  · exact (C7_stale_cache (⟨true, some 0, false, .ok 7, true, some 9⟩ : CacheEnv Nat)
      4321 0 rfl rfl (by decide)).2.2 rfl 7 rfl rfl

/-- Counterexample to claim C1 as stated: the cache is from the previous
local day (so a fetch is required and the record is a usable fallback), the
fetch succeeds returning document 1, but persisting it fails; the function
returns the OLD cached document 2, not the freshly fetched document 1. -/
theorem C1_counterexample :
    (LoadOrRefreshCache (⟨true, some 0, true, .ok 1, false, some 2⟩ : CacheEnv Nat)
        1500).result = .ok 2 ∧
    (LoadOrRefreshCache (⟨true, some 0, true, .ok 1, false, some 2⟩ : CacheEnv Nat)
        1500).result ≠ .ok 1 := by
  have hres : (LoadOrRefreshCache (⟨true, some 0, true, .ok 1, false, some 2⟩ :
      CacheEnv Nat) 1500).result = .ok 2 := rfl
  refine ⟨hres, ?_⟩
  rw [hres]
  intro h
  injection h with h2
  exact absurd h2 (by decide)

/-- Claim C1 (corrected): when the fetch succeeds but writing the cache
fails, the write exception is handled exactly like a fetch failure: the
function returns the OLD cached document when a usable record exists and
reads cleanly, propagates a read failure when the usable record does not
parse, and raises the no-cache error otherwise; the freshly fetched
document itself is not returned. -/
theorem C1_write_failure {Doc : Type} (env : CacheEnv Doc) (now : Int) (d : Doc)
    (hf : env.fetch = .ok d) (hw : env.writeOk = false)
    (hnf : (cacheStatus env now).needFetch = true) :
    (LoadOrRefreshCache env now).result
      = (if (cacheStatus env now).existsNow ∧ ¬ (cacheStatus env now).stale then
           match env.readDoc with
           | some c => .ok c
           | none => .error .readFailure
         else .error .noCacheNoFetch) := by
  simp [LoadOrRefreshCache, fallbackRead, hf, hw, hnf]

/-- Witness for the corrected C1: day-old cache, fetch gives 1, write fails,
cached document 2 is returned. -/
theorem C1_write_failure_witness :
    (LoadOrRefreshCache (⟨true, some 0, true, .ok 1, false, some 2⟩ : CacheEnv Nat)
        1500).result
      = (if (cacheStatus (⟨true, some 0, true, .ok 1, false, some 2⟩ : CacheEnv Nat)
            1500).existsNow ∧
           ¬ (cacheStatus (⟨true, some 0, true, .ok 1, false, some 2⟩ : CacheEnv Nat)
            1500).stale then
           match (⟨true, some 0, true, .ok 1, false, some 2⟩ : CacheEnv Nat).readDoc with
           | some c => .ok c
           | none => .error .readFailure
         else .error .noCacheNoFetch) :=
  C1_write_failure (⟨true, some 0, true, .ok 1, false, some 2⟩ : CacheEnv Nat)
    1500 1 rfl rfl rfl

/-- Counterexample to claim C2 as stated: a fresh same-day cache suppresses
the fetch; the cached document fails to read/parse; the run FAILS with the
propagated read error (exit code 1) even though a fetch — which is never
attempted — would have succeeded with document 5. -/
theorem C2_counterexample :
    (LoadOrRefreshCache (⟨true, some 600, true, .ok 5, true, none⟩ : CacheEnv Nat)
        700).result = .error .readFailure ∧
    (LoadOrRefreshCache (⟨true, some 600, true, .ok 5, true, none⟩ : CacheEnv Nat)
        700).result ≠ .ok 5 ∧
    mainExitCode (⟨true, some 600, true, .ok 5, true, none⟩ : CacheEnv Nat) 700 = 1 := by
  have hres : (LoadOrRefreshCache (⟨true, some 600, true, .ok 5, true, none⟩ :
      CacheEnv Nat) 700).result = .error .readFailure := rfl
  refine ⟨hres, ?_, rfl⟩
  rw [hres]
  intro h
  exact nomatch h

/-- Claim C2 (corrected): with a fresh same-day cache (no fetch required)
whose document fails to read or parse, `LoadOrRefreshCache` raises the read
failure — for every possible fetch outcome, i.e. no fetch attempt can
change the result — and `main` exits with code 1. -/
theorem C2_read_failure {Doc : Type} (env : CacheEnv Doc) (now mtime : Int)
    (hex : env.cacheExists = true) (hst : env.statMtime = some mtime)
    (hage : ¬(now - mtime > threeDaysMin)) (hday : dateOfMin mtime = dateOfMin now)
    (hread : env.readDoc = none) :
    (LoadOrRefreshCache env now).result = .error .readFailure ∧
    mainExitCode env now = 1 := by
  have hres : (LoadOrRefreshCache env now).result = .error .readFailure := by
    simp [LoadOrRefreshCache, cacheStatus, hex, hst, hage, hday, hread]
  refine ⟨hres, ?_⟩
  simp [mainExitCode, hres]

/-- Witness for the corrected C2: same-day cache, unreadable document, fetch
would return 5; the result is the read failure and exit code 1. -/
theorem C2_read_failure_witness :
    (LoadOrRefreshCache (⟨true, some 600, true, .ok 5, true, none⟩ : CacheEnv Nat)
        700).result = .error .readFailure ∧
    mainExitCode (⟨true, some 600, true, .ok 5, true, none⟩ : CacheEnv Nat) 700 = 1 :=
  C2_read_failure (⟨true, some 600, true, .ok 5, true, none⟩ : CacheEnv Nat)
    700 600 rfl rfl (by decide) (by decide) rfl

/-! ## Remote fetch retry loop (`FetchForecast`, source lines 95-139)

The outcome of the `i`-th network attempt is supplied by an environment
function.  An attempt either succeeds with a document, raises a `URLError`
whose reason is or is not a `socket.gaierror` (DNS failure), or raises some
other exception.  The trace records the result, the number of attempts made
and the list of back-off sleeps (in seconds) in order. -/

inductive Attempt (Doc : Type) where
  | success (d : Doc)
  | urlError (dns : Bool)
  | otherError
deriving DecidableEq

inductive FetchErr where
  | configErr
  | urlErr (dns : Bool)
  | otherErr
deriving DecidableEq

structure FetchTrace (Doc : Type) where
  result : Except FetchErr Doc
  attemptsMade : Nat
  sleeps : List Nat

/-- The `while True` loop (source lines 111-139): state is
`max_retries - retries_done` (the retries still allowed), the next attempt
index, `retry_delay`, and the sleeps so far.  A DNS failure retries while
retries remain (`retries_done < max_retries`); any other failure — and a
DNS failure with retries exhausted — propagates. -/
def fetchLoop {Doc : Type} (att : Nat → Attempt Doc) :
    Nat → Nat → Nat → List Nat → FetchTrace Doc
  | 0, i, _, sleeps =>
    match att i with
    | .success d => ⟨.ok d, i + 1, sleeps⟩
    | .urlError dns => ⟨.error (.urlErr dns), i + 1, sleeps⟩
    | .otherError => ⟨.error .otherErr, i + 1, sleeps⟩
  | rl + 1, i, delay, sleeps =>
    match att i with
    | .success d => ⟨.ok d, i + 1, sleeps⟩
    | .urlError true => fetchLoop att rl (i + 1) (delay * 2) (sleeps ++ [delay])
    | .urlError false => ⟨.error (.urlErr false), i + 1, sleeps⟩
    | .otherError => ⟨.error .otherErr, i + 1, sleeps⟩

/-- Embedding of `FetchForecast`: empty credentials fail immediately with a
configuration error and no network attempt; otherwise the retry loop runs
with `max_retries = 3` and initial delay 1. -/
def FetchForecast {Doc : Type} (siteId apiKey : String)
    (att : Nat → Attempt Doc) : FetchTrace Doc :=
  if siteId = "" ∨ apiKey = "" then ⟨.error .configErr, 0, []⟩
  else fetchLoop att 3 0 1 []

lemma fetchLoop_success {Doc : Type} (att : Nat → Attempt Doc) (rl i delay : Nat)
    (sleeps : List Nat) (d : Doc) (h : att i = .success d) :
    fetchLoop att rl i delay sleeps = ⟨.ok d, i + 1, sleeps⟩ := by
  cases rl <;> (unfold fetchLoop; rw [h])

lemma fetchLoop_dns {Doc : Type} (att : Nat → Attempt Doc) (rl i delay : Nat)
    (sleeps : List Nat) (h : att i = .urlError true) :
    fetchLoop att (rl + 1) i delay sleeps
      = fetchLoop att rl (i + 1) (delay * 2) (sleeps ++ [delay]) := by
  conv_lhs => unfold fetchLoop
  rw [h]

lemma fetchLoop_dns_exhausted {Doc : Type} (att : Nat → Attempt Doc) (i delay : Nat)
    (sleeps : List Nat) (h : att i = .urlError true) :
    fetchLoop att 0 i delay sleeps = ⟨.error (.urlErr true), i + 1, sleeps⟩ := by
  unfold fetchLoop
  rw [h]

lemma fetchLoop_nondns {Doc : Type} (att : Nat → Attempt Doc) (rl i delay : Nat)
    (sleeps : List Nat) (h : att i = .urlError false) :
    fetchLoop att rl i delay sleeps = ⟨.error (.urlErr false), i + 1, sleeps⟩ := by
  cases rl <;> (unfold fetchLoop; rw [h])

lemma fetchLoop_other {Doc : Type} (att : Nat → Attempt Doc) (rl i delay : Nat)
    (sleeps : List Nat) (h : att i = .otherError) :
    fetchLoop att rl i delay sleeps = ⟨.error .otherErr, i + 1, sleeps⟩ := by
  cases rl <;> (unfold fetchLoop; rw [h])

/-- Claim C8: with non-empty credentials the retry loop is bounded — at most
4 attempts in total (3 additional after a first failure), sleeping 1, 2, 4
time units between attempts (a prefix of [1,2,4], at most 7 units total);
after exhausting the retries the DNS error propagates; any non-DNS failure
propagates immediately after a single attempt with no sleep. -/
theorem C8_dns_retry_bounds {Doc : Type} (siteId apiKey : String)
    (att : Nat → Attempt Doc) (hsite : siteId ≠ "") (hkey : apiKey ≠ "") :
    ((FetchForecast siteId apiKey att).attemptsMade ≤ 4 ∧
     ((FetchForecast siteId apiKey att).sleeps = [] ∨
      (FetchForecast siteId apiKey att).sleeps = [1] ∨
      (FetchForecast siteId apiKey att).sleeps = [1, 2] ∨
      (FetchForecast siteId apiKey att).sleeps = [1, 2, 4]) ∧
     (FetchForecast siteId apiKey att).sleeps.sum ≤ 7) ∧
    (att 0 = .urlError false →
        FetchForecast siteId apiKey att = ⟨.error (.urlErr false), 1, []⟩) ∧
    (att 0 = .otherError →
        FetchForecast siteId apiKey att = ⟨.error .otherErr, 1, []⟩) ∧
    ((∀ i, att i = .urlError true) →
        FetchForecast siteId apiKey att = ⟨.error (.urlErr true), 4, [1, 2, 4]⟩) := by
  have hF : FetchForecast siteId apiKey att = fetchLoop att 3 0 1 [] := by
    unfold FetchForecast
    rw [if_neg (by simp [hsite, hkey])]
  rw [hF]
  rcases h0 : att 0 with d | dns | _
  · rw [fetchLoop_success att 3 0 1 [] d h0]
    refine ⟨⟨by norm_num, Or.inl rfl, by norm_num⟩, ?_, ?_, ?_⟩
    · intro hc; exact absurd hc (by simp)
    · intro hc; exact absurd hc (by simp)
    · intro hall; have h := hall 0; rw [h0] at h; exact absurd h (by simp)
  · cases dns
    · rw [fetchLoop_nondns att 3 0 1 [] h0]
      refine ⟨⟨by norm_num, Or.inl rfl, by norm_num⟩, fun _ => rfl, ?_, ?_⟩
      · intro hc; exact absurd hc (by simp)
      · intro hall; have h := hall 0; rw [h0] at h; exact absurd h (by simp)
    · rw [fetchLoop_dns att 2 0 1 [] h0, show ([] : List Nat) ++ [1] = [1] from rfl]
      rcases h1 : att 1 with d | dns1 | _
      · rw [fetchLoop_success att 2 1 2 [1] d h1]
        refine ⟨⟨by norm_num, Or.inr (Or.inl rfl), by norm_num⟩, ?_, ?_, ?_⟩
        · intro hc; exact absurd hc (by simp)
        · intro hc; exact absurd hc (by simp)
        · intro hall; have h := hall 1; rw [h1] at h; exact absurd h (by simp)
      · cases dns1
        · rw [fetchLoop_nondns att 2 1 2 [1] h1]
          refine ⟨⟨by norm_num, Or.inr (Or.inl rfl), by norm_num⟩, ?_, ?_, ?_⟩
          · intro hc; exact absurd hc (by simp)
          · intro hc; exact absurd hc (by simp)
          · intro hall; have h := hall 1; rw [h1] at h; exact absurd h (by simp)
        · rw [fetchLoop_dns att 1 1 2 [1] h1, show ([1] : List Nat) ++ [2] = [1, 2] from rfl]
          rcases h2 : att 2 with d | dns2 | _
          · rw [fetchLoop_success att 1 2 4 [1, 2] d h2]
            refine ⟨⟨by norm_num, Or.inr (Or.inr (Or.inl rfl)), by norm_num⟩, ?_, ?_, ?_⟩
            · intro hc; exact absurd hc (by simp)
            · intro hc; exact absurd hc (by simp)
            · intro hall; have h := hall 2; rw [h2] at h; exact absurd h (by simp)
          · cases dns2
            · rw [fetchLoop_nondns att 1 2 4 [1, 2] h2]
              refine ⟨⟨by norm_num, Or.inr (Or.inr (Or.inl rfl)), by norm_num⟩, ?_, ?_, ?_⟩
              · intro hc; exact absurd hc (by simp)
              · intro hc; exact absurd hc (by simp)
              · intro hall; have h := hall 2; rw [h2] at h; exact absurd h (by simp)
            · rw [fetchLoop_dns att 0 2 4 [1, 2] h2,
                show ([1, 2] : List Nat) ++ [4] = [1, 2, 4] from rfl]
              rcases h3 : att 3 with d | dns3 | _
              · rw [fetchLoop_success att 0 3 8 [1, 2, 4] d h3]
                refine ⟨⟨by norm_num, Or.inr (Or.inr (Or.inr rfl)), by norm_num⟩, ?_, ?_, ?_⟩
                · intro hc; exact absurd hc (by simp)
                · intro hc; exact absurd hc (by simp)
                · intro hall; have h := hall 3; rw [h3] at h; exact absurd h (by simp)
              · cases dns3
                · rw [fetchLoop_nondns att 0 3 8 [1, 2, 4] h3]
                  refine ⟨⟨by norm_num, Or.inr (Or.inr (Or.inr rfl)), by norm_num⟩, ?_, ?_, ?_⟩
                  · intro hc; exact absurd hc (by simp)
                  · intro hc; exact absurd hc (by simp)
                  · intro hall; have h := hall 3; rw [h3] at h; exact absurd h (by simp)
                · rw [fetchLoop_dns_exhausted att 3 8 [1, 2, 4] h3]
                  refine ⟨⟨by norm_num, Or.inr (Or.inr (Or.inr rfl)), by norm_num⟩, ?_, ?_, fun _ => rfl⟩
                  · intro hc; exact absurd hc (by simp)
                  · intro hc; exact absurd hc (by simp)
              · rw [fetchLoop_other att 0 3 8 [1, 2, 4] h3]
                refine ⟨⟨by norm_num, Or.inr (Or.inr (Or.inr rfl)), by norm_num⟩, ?_, ?_, ?_⟩
                · intro hc; exact absurd hc (by simp)
                · intro hc; exact absurd hc (by simp)
                · intro hall; have h := hall 3; rw [h3] at h; exact absurd h (by simp)
          · rw [fetchLoop_other att 1 2 4 [1, 2] h2]
            refine ⟨⟨by norm_num, Or.inr (Or.inr (Or.inl rfl)), by norm_num⟩, ?_, ?_, ?_⟩
            · intro hc; exact absurd hc (by simp)
            · intro hc; exact absurd hc (by simp)
            · intro hall; have h := hall 2; rw [h2] at h; exact absurd h (by simp)
      · rw [fetchLoop_other att 2 1 2 [1] h1]
        refine ⟨⟨by norm_num, Or.inr (Or.inl rfl), by norm_num⟩, ?_, ?_, ?_⟩
        · intro hc; exact absurd hc (by simp)
        · intro hc; exact absurd hc (by simp)
        · intro hall; have h := hall 1; rw [h1] at h; exact absurd h (by simp)
  · rw [fetchLoop_other att 3 0 1 [] h0]
    refine ⟨⟨by norm_num, Or.inl rfl, by norm_num⟩, ?_, fun _ => rfl, ?_⟩
    · intro hc; exact absurd hc (by simp)
    · intro hall; have h := hall 0; rw [h0] at h; exact absurd h (by simp)

/-- Witness for C8: with every attempt failing on DNS the trace is 4
attempts and sleeps 1, 2, 4; a non-DNS failure on the first attempt yields
one attempt and no sleep. -/
theorem C8_dns_retry_bounds_witness :
    FetchForecast "site" "key" (fun _ => (Attempt.urlError true : Attempt Nat))
      = ⟨.error (.urlErr true), 4, [1, 2, 4]⟩ ∧
    FetchForecast "site" "key" (fun _ => (Attempt.urlError false : Attempt Nat))
      = ⟨.error (.urlErr false), 1, []⟩ := by
  constructor
  · exact (C8_dns_retry_bounds "site" "key" (fun _ => (Attempt.urlError true : Attempt Nat))
      (by decide) (by decide)).2.2.2 (fun _ => rfl)
  · exact (C8_dns_retry_bounds "site" "key" (fun _ => (Attempt.urlError false : Attempt Nat))
      (by decide) (by decide)).2.1 rfl

/-! ## Battery capacity (source lines 55 and 279-283) -/

/-- `cap = BATTERY_KWH if BATTERY_KWH > 0 else 15.0` (source line 279). -/
def capOf (batteryKwh : ℚ) : ℚ := if batteryKwh > 0 then batteryKwh else 15

/-- `pct = (r["kwh_opt"] / cap) * 100.0 if cap > 0 else 0.0` (line 283). -/
def pctOf (kwhOpt cap : ℚ) : ℚ := if cap > 0 then kwhOpt / cap * 100 else 0

/-- Claim C10: when `SOLCAST_BATTERY_KWH` parses to a non-positive value,
the percent-of-capacity column is computed against 15.0 kWh. -/
theorem C10_battery_default (b : ℚ) (hb : b ≤ 0) :
    capOf b = 15 ∧ ∀ kwhOpt : ℚ, pctOf kwhOpt (capOf b) = kwhOpt / 15 * 100 := by
  have hc : capOf b = 15 := by
    unfold capOf
    rw [if_neg (not_lt.mpr hb)]
  refine ⟨hc, fun kwhOpt => ?_⟩
  rw [hc]
  unfold pctOf
  rw [if_pos (by norm_num)]

/-- Witness for C10: `SOLCAST_BATTERY_KWH=0` gives capacity 15 and the
percent column divides by 15. -/
theorem C10_battery_default_witness :
    capOf 0 = 15 ∧ pctOf 3 (capOf 0) = 3 / 15 * 100 :=
  ⟨(C10_battery_default 0 le_rfl).1, (C10_battery_default 0 le_rfl).2 3⟩

end Solcast
